import Mathlib

/-!
Verification development for `src/language-server/src/jsonc-instance.js`.

The file shallowly embeds the `JsoncInstance` class and the module-level
`pointerSegments` generator.  The external collaborators that the module
imports are modelled at their interface boundary (spec section 6):

* `jsonc-parser` nodes (`{type, offset, length, value?, children?, parent}`)
  become an arena of `Node` records addressed by `Nat` indices, so that the
  one destructive mutation performed by `asEmbedded` can be expressed as a
  functional update of the arena while stale `JsoncInstance` handles keep
  observing it, exactly as JavaScript object references do.
* `JSON.parse` (used by `value()` to re-parse a source slice) is an arbitrary
  parameter `jp : String → Option JValue`; `none` renders a thrown
  `SyntaxError` as well as `undefined`.
* `decodeURI` (used by `get`) is an arbitrary parameter `du`.
* `getKeywordId` from `@hyperjump/json-schema` is an arbitrary parameter
  `gki : String → String → String` (keyword short name and dialect id to the
  canonical keyword identifier).
* the text document is carried as the plain `String` it wraps.

JSON numbers are modelled as integers; every literal exercised by the claims
is integral.  JavaScript `undefined` is rendered by `Option.none` throughout.
-/

/-- JSON values as materialized by `value()` (JavaScript plain data). -/
inductive JValue where
  | null
  | bool (b : Bool)
  | num (n : Int)
  | str (s : String)
  | arr (elements : List JValue)
  | obj (members : List (String × JValue))

mutual

/-- Decidable equality for `JValue` (spelled out because the inductive nests
lists, which the deriving handler does not support). -/
def JValue.decEq : (a b : JValue) → Decidable (a = b)
  | JValue.null, JValue.null => isTrue rfl
  | JValue.bool x, JValue.bool y =>
    match instDecidableEqBool x y with
    | isTrue h => isTrue (h ▸ rfl)
    | isFalse h => isFalse (fun e => h (JValue.bool.inj e))
  | JValue.num x, JValue.num y =>
    match Int.instDecidableEq x y with
    | isTrue h => isTrue (h ▸ rfl)
    | isFalse h => isFalse (fun e => h (JValue.num.inj e))
  | JValue.str x, JValue.str y =>
    match String.decEq x y with
    | isTrue h => isTrue (h ▸ rfl)
    | isFalse h => isFalse (fun e => h (JValue.str.inj e))
  | JValue.arr xs, JValue.arr ys =>
    match JValue.decEqElems xs ys with
    | isTrue h => isTrue (h ▸ rfl)
    | isFalse h => isFalse (fun e => h (JValue.arr.inj e))
  | JValue.obj xs, JValue.obj ys =>
    match JValue.decEqMembers xs ys with
    | isTrue h => isTrue (h ▸ rfl)
    | isFalse h => isFalse (fun e => h (JValue.obj.inj e))
  | JValue.null, JValue.bool _ | JValue.null, JValue.num _ | JValue.null, JValue.str _
  | JValue.null, JValue.arr _ | JValue.null, JValue.obj _
  | JValue.bool _, JValue.null | JValue.bool _, JValue.num _ | JValue.bool _, JValue.str _
  | JValue.bool _, JValue.arr _ | JValue.bool _, JValue.obj _
  | JValue.num _, JValue.null | JValue.num _, JValue.bool _ | JValue.num _, JValue.str _
  | JValue.num _, JValue.arr _ | JValue.num _, JValue.obj _
  | JValue.str _, JValue.null | JValue.str _, JValue.bool _ | JValue.str _, JValue.num _
  | JValue.str _, JValue.arr _ | JValue.str _, JValue.obj _
  | JValue.arr _, JValue.null | JValue.arr _, JValue.bool _ | JValue.arr _, JValue.num _
  | JValue.arr _, JValue.str _ | JValue.arr _, JValue.obj _
  | JValue.obj _, JValue.null | JValue.obj _, JValue.bool _ | JValue.obj _, JValue.num _
  | JValue.obj _, JValue.str _ | JValue.obj _, JValue.arr _ => isFalse nofun

/-- Decidable equality of element lists, mutually with `JValue.decEq`. -/
def JValue.decEqElems : (xs ys : List JValue) → Decidable (xs = ys)
  | [], [] => isTrue rfl
  | [], _ :: _ => isFalse nofun
  | _ :: _, [] => isFalse nofun
  | x :: xs, y :: ys =>
    match JValue.decEq x y with
    | isFalse h => isFalse (fun e => h (List.cons.inj e).1)
    | isTrue h1 =>
      match JValue.decEqElems xs ys with
      | isTrue h2 => isTrue (by rw [h1, h2])
      | isFalse h2 => isFalse (fun e => h2 (List.cons.inj e).2)

/-- Decidable equality of member lists, mutually with `JValue.decEq`. -/
def JValue.decEqMembers : (xs ys : List (String × JValue)) → Decidable (xs = ys)
  | [], [] => isTrue rfl
  | [], _ :: _ => isFalse nofun
  | _ :: _, [] => isFalse nofun
  | (k1, v1) :: xs, (k2, v2) :: ys =>
    match String.decEq k1 k2 with
    | isFalse h => isFalse (fun e => h (congrArg Prod.fst (List.cons.inj e).1))
    | isTrue hk =>
      match JValue.decEq v1 v2 with
      | isFalse h => isFalse (fun e => h (congrArg Prod.snd (List.cons.inj e).1))
      | isTrue hv =>
        match JValue.decEqMembers xs ys with
        | isTrue ht => isTrue (by rw [hk, hv, ht])
        | isFalse h => isFalse (fun e => h (List.cons.inj e).2)

end

instance : DecidableEq JValue := JValue.decEq

/-- A CST node as produced by the external `jsonc-parser` (spec section 6:
`{type, offset, length, value?, children?, parent}`).  `children` and
`parent` hold arena indices; a missing `value`, `parent`, or child is
`none` / an absent list entry, as in JavaScript. -/
structure Node where
  type : String
  offset : Nat
  length : Nat
  value : Option JValue
  children : List Nat
  parent : Option Nat

/-- The shared concrete-syntax tree: an arena of nodes addressed by index.
Node references in JavaScript become indices here, so the mutation done by
`asEmbedded` is a functional update of the arena that every instance holding
an index observes. -/
abbrev Arena := List Node

/-- The annotations store: pointer string to (keyword id to ordered value
list), rendered as association lists with JavaScript object-key semantics
(unique keys, insertion order preserved, update replaces in place). -/
abbrev AnnMap := List (String × List (String × List JValue))

/-- JavaScript object property read `m[k]` on an association list. -/
def objGet {α : Type} (m : List (String × α)) (k : String) : Option α :=
  (m.find? (fun e => e.1 == k)).map Prod.snd

/-- JavaScript object spread-update `\x7b ...m, [k]: v \x7d` on an
association list: replaces the value in place when the key is present,
appends the binding otherwise. -/
def objSet {α : Type} (m : List (String × α)) (k : String) (v : α) : List (String × α) :=
  if m.any (fun e => e.1 == k) then m.map (fun e => if e.1 == k then (k, v) else e)
  else m ++ [(k, v)]

/-- The `JsoncInstance` fields (constructor, source lines 9-15).  The shared
`textDocument` is carried separately as the plain document text; `node` is
`none` when the instance addresses an absent location; `annotations` is
`none` exactly when the JavaScript field holds `undefined`. -/
structure JsoncInstance where
  node : Option Nat
  root : Nat
  pointer : String
  annotations : Option AnnMap

/-- The two kinds of exception the module throws: the resolution error of
`get` (line 120) and the malformed-pointer error of `pointerSegments`
(line 207). -/
inductive JsError where
  | resolutionError (uri : String)
  | invalidPointer (pointer : String)
deriving DecidableEq

/-- JavaScript `text.slice(offset, offset + length)` for a node
(source line 36). -/
def nodeSlice (text : String) (n : Node) : String :=
  String.mk ((text.data.drop n.offset).take n.length)

/-- JavaScript `uri.substring(n)`. -/
def strDrop (s : String) (n : Nat) : String :=
  String.mk (s.data.drop n)

/-- Modelled from the spec (section 4.1): one character of the RFC-6901
escaping used by the external `@hyperjump/json-pointer` `append` — tilde to
`~0` first, then slash to `~1`.  Because the two passes substitute single
characters whose replacements introduce no new occurrence of either pattern,
the sequential global substitutions act independently per character. -/
def escapeChar (c : Char) : List Char :=
  if c = '~' then ['~', '0'] else if c = '/' then ['~', '1'] else [c]

/-- RFC-6901 escaping of one raw segment, character by character. -/
def escSeg (l : List Char) : List Char :=
  (l.map escapeChar).flatten

/-- Modelled from the spec (section 4.1) and the interface of
`@hyperjump/json-pointer`: `append(segment, pointer)` returns
`pointer + "/" + escaped segment`. -/
def JsonPointer.append (segment pointer : String) : String :=
  pointer ++ ("/") ++ String.mk (escSeg segment.data)

/-- Modelled from the spec (section 4.1): the encoder side of the pointer
codec — the pointer for a path of raw segments is built by appending each
segment in turn to the empty pointer. -/
def encodePointer (segments : List String) : String :=
  segments.foldl (fun pointer segment => JsonPointer.append segment pointer) ("")

/-- Segment unescaping of `pointerSegments` (source line 219):
`.replace(/~1/g, "/").replace(/~0/g, "~")`.  The two sequential global
replacements are rendered as one left-to-right scan; this is equivalent
because occurrences of `~1` and `~0` are pairwise disjoint (each starts with
a tilde followed by a different digit) and replacing `~1` by `/` neither
creates nor destroys an occurrence of `~0`. -/
def unescapeChars : List Char → List Char
  | [] => []
  | [c] => [c]
  | c1 :: c2 :: rest =>
    if c1 = '~' then
      if c2 = '1' then '/' :: unescapeChars rest
      else if c2 = '0' then '~' :: unescapeChars rest
      else c1 :: unescapeChars (c2 :: rest)
    else c1 :: unescapeChars (c2 :: rest)

/-- The positional scan of `pointerSegments` (source lines 210-218): after
the leading slash, segments are the maximal runs between literal slashes;
a trailing slash yields a final empty segment, as the loop does. -/
def splitSlash : List Char → List (List Char)
  | [] => [[]]
  | c :: rest =>
    if c = '/' then [] :: splitSlash rest
    else
      match splitSlash rest with
      | [] => [[c]]
      | seg :: segs => (c :: seg) :: segs

/-- The format check and split of `pointerSegments` on the character list:
`none` renders the thrown `Invalid JSON Pointer` error (source lines
206-208), the empty pointer yields zero segments. -/
def decodeChars : List Char → Option (List (List Char))
  | [] => some []
  | c :: rest => if c = '/' then some (splitSlash rest) else none

/-- `pointerSegments` (source lines 205-221): rejects a non-empty pointer
that does not start with a slash, otherwise splits on literal slashes and
unescapes each segment. -/
def pointerSegments (pointer : String) : Except JsError (List String) :=
  match decodeChars pointer.data with
  | some segs => Except.ok (segs.map (fun seg => String.mk (unescapeChars seg)))
  | none => Except.error (JsError.invalidPointer pointer)

/-- Modelled from the spec (section 6) and the interface of `jsonc-parser`:
one navigation step of `findNodeAtLocation`.  All path segments produced by
`pointerSegments` are strings, and a string segment selects the value child
of the first completed property (exactly two children, matching key) of an
object node; on any other node the lookup misses. -/
def findStep (a : Arena) (segment : String) (cur : Nat) : Option Nat :=
  match a.get? cur with
  | none => none
  | some n =>
    if n.type = "object" then
      (n.children.filterMap (fun pIdx =>
        match a.get? pIdx with
        | none => none
        | some p =>
          if p.children.length == 2 then
            match p.children.get? 0 with
            | none => none
            | some kIdx =>
              match a.get? kIdx with
              | none => none
              | some kn =>
                match kn.value with
                | some (JValue.str s) => if s = segment then p.children.get? 1 else none
                | _ => none
          else none)).head?
    else none

/-- Modelled from the spec (section 6): `findNodeAtLocation(root, path)`
walks the path from the root, failing to `none` on the first miss. -/
def findNodeAtLocation (a : Arena) (root : Nat) (path : List String) : Option Nat :=
  path.foldlM (fun cur seg => findStep a seg cur) root

/-- `value()` (source lines 32-41): `undefined` for an absent node, the
parser-cached value when present, otherwise `JSON.parse` of the node's exact
source slice.  `none` from `jp` renders a thrown `SyntaxError`. -/
def value (jp : String → Option JValue) (text : String) (a : Arena) (i : JsoncInstance) : Option JValue :=
  match i.node with
  | none => none
  | some idx =>
    match a.get? idx with
    | none => none
    | some n =>
      match n.value with
      | some v => some v
      | none => jp (nodeSlice text n)

/-- `typeOf()` (source lines 47-49): `this.node?.type ?? "undefined"`. -/
def typeOf (a : Arena) (i : JsoncInstance) : String :=
  match i.node with
  | none => ("undefined")
  | some idx =>
    match a.get? idx with
    | none => ("undefined")
    | some n => n.type

/-- The body of one `entries()` iteration (source lines 61-70): a property
node is skipped when `children[1]` is missing; otherwise the key node's
cached string names the property and the key/value instances share the
stepped pointer and the parent's annotations.  (The parser guarantees the
key child and its cached string exist whenever any child does, so those
branches return `none` only on trees the parser never produces.) -/
def entryOf (a : Arena) (root : Nat) (pointer : String) (annotations : Option AnnMap) (pIdx : Nat) : Option (JsoncInstance × JsoncInstance) :=
  match a.get? pIdx with
  | none => none
  | some p =>
    match p.children.get? 1 with
    | none => none
    | some vIdx =>
      match p.children.get? 0 with
      | none => none
      | some kIdx =>
        match a.get? kIdx with
        | none => none
        | some kn =>
          match kn.value with
          | some (JValue.str propertyName) =>
            some (⟨some kIdx, root, JsonPointer.append propertyName pointer, annotations⟩,
                  ⟨some vIdx, root, JsonPointer.append propertyName pointer, annotations⟩)
          | _ => none

/-- `entries()` (source lines 56-72): empty unless the node is an object;
the generator is rendered as the finite list it yields. -/
def entries (a : Arena) (i : JsoncInstance) : List (JsoncInstance × JsoncInstance) :=
  if typeOf a i ≠ "object" then []
  else
    match i.node with
    | none => []
    | some idx =>
      match a.get? idx with
      | none => []
      | some n => n.children.filterMap (entryOf a i.root i.pointer i.annotations)

/-- The predicate of `step`'s `find` (source line 52):
`([key]) => key.value() === propertyName` — strict equality of the key's
materialized value with the string `propertyName`. -/
def isKeyFor (jp : String → Option JValue) (text : String) (a : Arena) (propertyName : String) (pair : JsoncInstance × JsoncInstance) : Bool :=
  match value jp text a pair.1 with
  | some (JValue.str s) => s == propertyName
  | _ => false

/-- `step(propertyName)` (source lines 51-54).  Note the source passes
`this.annotations` as a third argument to `JsonPointer.append` — which takes
two — instead of as the constructor's fifth argument, so the absent-node
instance is built with `annotations === undefined`; the embedding renders
that faithfully with `none`. -/
def step (jp : String → Option JValue) (text : String) (a : Arena) (i : JsoncInstance) (propertyName : String) : JsoncInstance :=
  match (entries a i).find? (isKeyFor jp text a propertyName) with
  | some pair => pair.2
  | none => ⟨none, i.root, JsonPointer.append propertyName i.pointer, none⟩

/-- `iter()` (source lines 74-84): element instances of an array node in
index order, empty for non-arrays. -/
def iter (a : Arena) (i : JsoncInstance) : List JsoncInstance :=
  if typeOf a i ≠ "array" then []
  else
    match i.node with
    | none => []
    | some idx =>
      match a.get? idx with
      | none => []
      | some n =>
        n.children.enum.map (fun p => ⟨some p.2, i.root, JsonPointer.append (toString p.1) i.pointer, i.annotations⟩)

/-- `keys()` (source lines 86-96): yields the key node of every property,
whether or not the property has a value child. -/
def keys (a : Arena) (i : JsoncInstance) : List JsoncInstance :=
  if typeOf a i ≠ "object" then []
  else
    match i.node with
    | none => []
    | some idx =>
      match a.get? idx with
      | none => []
      | some n =>
        n.children.filterMap (fun pIdx =>
          match a.get? pIdx with
          | none => none
          | some p =>
            match p.children.get? 0 with
            | none => none
            | some kIdx =>
              match a.get? kIdx with
              | none => none
              | some kn =>
                match kn.value with
                | some (JValue.str propertyName) =>
                  some ⟨some kIdx, i.root, JsonPointer.append propertyName i.pointer, i.annotations⟩
                | _ => none)

/-- `values()` (source lines 98-108): yields, for every property, an
instance whose node is `children[1]` — which may be absent, giving an
absent-node instance rather than skipping the property. -/
def values (a : Arena) (i : JsoncInstance) : List JsoncInstance :=
  if typeOf a i ≠ "object" then []
  else
    match i.node with
    | none => []
    | some idx =>
      match a.get? idx with
      | none => []
      | some n =>
        n.children.filterMap (fun pIdx =>
          match a.get? pIdx with
          | none => none
          | some p =>
            match p.children.get? 0 with
            | none => none
            | some kIdx =>
              match a.get? kIdx with
              | none => none
              | some kn =>
                match kn.value with
                | some (JValue.str propertyName) =>
                  some ⟨p.children.get? 1, i.root, JsonPointer.append propertyName i.pointer, i.annotations⟩
                | _ => none)

/-- `has(key)` (source lines 43-45): whether some yielded key instance
materializes to exactly the string `key`. -/
def has (jp : String → Option JValue) (text : String) (a : Arena) (i : JsoncInstance) (key : String) : Bool :=
  (keys a i).any (fun ki =>
    match value jp text a ki with
    | some (JValue.str s) => s == key
    | _ => false)

/-- `get(uri)` (source lines 118-126): throws the resolution error unless
the reference starts with `#`; otherwise decodes the fragment with the
external `decodeURI` (parameter `du`), splits it with `pointerSegments`
(whose own error propagates), and resolves the segments against `this.root`
— the current view's root. -/
def JsoncInstance.get (du : String → String) (a : Arena) (i : JsoncInstance) (uri : String) : Except JsError JsoncInstance :=
  if uri.data.head? ≠ some '#' then
    Except.error (JsError.resolutionError uri)
  else
    match pointerSegments (du (strDrop uri 1)) with
    | Except.error e => Except.error e
    | Except.ok segs =>
      Except.ok ⟨findNodeAtLocation a i.root segs, i.root, du (strDrop uri 1), i.annotations⟩

/-- JavaScript array index assignment `l[j] = x` for an index that is within
bounds or one past the end (the only shapes `asEmbedded` produces on trees
the parser builds). -/
def setAt (l : List Nat) (j : Nat) (x : Nat) : List Nat :=
  if j = l.length then l ++ [x] else l.set j x

/-- `asEmbedded()` (source lines 128-140): returns a fresh instance rooted
at the current node with an empty pointer and a fresh empty annotations map,
and replaces the node's slot in its structural parent by a zero-length
`boolean` placeholder at the same offset.  `none` renders the `TypeError`
JavaScript would throw when `this.node` or its parent is `undefined`; when
`findIndex` misses (which `jsonc-parser` trees never produce) the write goes
to index `-1` and changes no child slot. -/
def asEmbedded (a : Arena) (i : JsoncInstance) : Option (JsoncInstance × Arena) :=
  match i.node with
  | none => none
  | some idx =>
    match a.get? idx with
    | none => none
    | some n =>
      let instance0 : JsoncInstance := ⟨some idx, idx, (""), some []⟩
      match n.parent with
      | none => none
      | some pIdx =>
        match a.get? pIdx with
        | none => none
        | some p =>
          let placeholder : Node := ⟨("boolean"), n.offset, 0, none, [], none⟩
          let newChildren :=
            if p.type = "property" then setAt p.children 1 a.length
            else
              match p.children.findIdx? (fun c => c == idx) with
              | some j => setAt p.children j a.length
              | none => p.children
          let a2 := (a ++ [placeholder]).set pIdx ⟨p.type, p.offset, p.length, p.value, newChildren, p.parent⟩
          some (instance0, a2)

/-- `annotation(keyword, dialectId)` (source lines 142-145): resolves the
keyword through the external `getKeywordId` (parameter `gki`) and reads
`this.annotations[this.pointer]?.[keywordId] || []`.  When `annotations` is
`undefined` the JavaScript property read throws a `TypeError`, rendered as
the error case. -/
def annotation (gki : String → String → String) (i : JsoncInstance) (keyword dialectId : String) : Except String (List JValue) :=
  match i.annotations with
  | none => Except.error ("TypeError: cannot read properties of undefined")
  | some m =>
    Except.ok (((objGet m i.pointer).bind (fun inner => objGet inner (gki keyword dialectId))).getD [])

/-- `annotate(keyword, value)` (source lines 147-161): shallow-clones the
instance and rebuilds the annotations map with `value` prepended to the list
stored under the current pointer and the raw `keyword` (the keyword is not
resolved through `getKeywordId` here).  Reading
`this.annotations[this.pointer]` throws when `annotations` is `undefined`. -/
def annotate (i : JsoncInstance) (keyword : String) (v : JValue) : Except String JsoncInstance :=
  match i.annotations with
  | none => Except.error ("TypeError: cannot read properties of undefined")
  | some m =>
    let inner := (objGet m i.pointer).getD []
    let existing := ((objGet m i.pointer).bind (fun inn => objGet inn keyword)).getD []
    Except.ok ⟨i.node, i.root, i.pointer, some (objSet m i.pointer (objSet inner keyword (v :: existing)))⟩

/-- `parent()` (source lines 176-178): the structural parent node under the
unchanged pointer; `none` renders the `TypeError` thrown when `this.node` is
`undefined`. -/
def parent (a : Arena) (i : JsoncInstance) : Option JsoncInstance :=
  match i.node with
  | none => none
  | some idx =>
    match a.get? idx with
    | none => none
    | some n => some ⟨n.parent, i.root, i.pointer, i.annotations⟩

/-- Shape check used by `represents`: property node `pIdx` is a completed
pair whose key node caches the string `key`; returns the value child. -/
def propOk (a : Arena) (pIdx : Nat) (key : String) : Option Nat :=
  match a.get? pIdx with
  | none => none
  | some p =>
    if p.type == "property" && p.children.length == 2 then
      match p.children.get? 0 with
      | none => none
      | some kIdx =>
        match a.get? kIdx with
        | none => none
        | some kn =>
          if kn.type == "string" && decide (kn.value = some (JValue.str key)) then
            p.children.get? 1
          else none
    else none

/-- Well-formedness of a parse, fuel-indexed: node `idx` of the arena
faithfully represents the JSON value `v` for the external parser `jp` —
composite nodes carry no cached value and their exact source slice re-parses
to `v`, object properties are completed pairs with distinct string keys, and
scalar nodes carry `v` as their cached value under the matching type tag.
Any real parse of a well-formed document satisfies this with fuel at least
the tree height plus one. -/
def represents (jp : String → Option JValue) (text : String) (a : Arena) : Nat → Nat → JValue → Bool
  | 0, _, _ => false
  | Nat.succ fuel, idx, v =>
    match a.get? idx with
    | none => false
    | some n =>
      match v with
      | JValue.obj members =>
        n.type == "object" && n.value.isNone
          && decide (jp (nodeSlice text n) = some (JValue.obj members))
          && decide ((members.map Prod.fst).Nodup)
          && (n.children.length == members.length)
          && (n.children.zip members).all (fun pm =>
              match propOk a pm.1 pm.2.1 with
              | some vIdx => represents jp text a fuel vIdx pm.2.2
              | none => false)
      | JValue.arr elems =>
        n.type == "array" && n.value.isNone
          && decide (jp (nodeSlice text n) = some (JValue.arr elems))
          && (n.children.length == elems.length)
          && (n.children.zip elems).all (fun ce => represents jp text a fuel ce.1 ce.2)
      | JValue.null => n.type == "null" && decide (n.value = some JValue.null)
      | JValue.bool b => n.type == "boolean" && decide (n.value = some (JValue.bool b))
      | JValue.num q => n.type == "number" && decide (n.value = some (JValue.num q))
      | JValue.str s => n.type == "string" && decide (n.value = some (JValue.str s))

/-- JavaScript object indexing `w[k]` of a materialized JSON value, as used
on the right-hand side of the navigation-consistency property. -/
def jsObjectIndex (w : JValue) (k : String) : Option JValue :=
  match w with
  | JValue.obj members => (members.find? (fun e => e.1 == k)).map Prod.snd
  | _ => none

/-- The sample document `{"a": {"b": 1}}` of the spec's embedding scenario
(section 8). -/
def docText : String := "\x7b\"a\": \x7b\"b\": 1\x7d\x7d"

/-- The parse tree of `docText` as `jsonc-parser` produces it: node 0 the
root object, node 1 the property, node 2 the key string `a`, node 3 the
inner object, node 4 its property, node 5 the key string `b`, node 6 the
number literal `1`. -/
def docArena : Arena :=
  [⟨("object"), 0, 15, none, [1], none⟩,
   ⟨("property"), 1, 13, none, [2, 3], some 0⟩,
   ⟨("string"), 1, 3, some (JValue.str ("a")), [], some 1⟩,
   ⟨("object"), 6, 8, none, [4], some 1⟩,
   ⟨("property"), 7, 6, none, [5, 6], some 3⟩,
   ⟨("string"), 7, 3, some (JValue.str ("b")), [], some 4⟩,
   ⟨("number"), 12, 1, some (JValue.num 1), [], some 4⟩]

/-- A non-empty annotations store, to make inherited state observable. -/
def annSeed : AnnMap := [(("") , [(("seed"), [JValue.bool true])])]

/-- The root instance over `docArena`, carrying `annSeed`. -/
def docRootInstance : JsoncInstance := ⟨some 0, 0, (""), some annSeed⟩

/-- The instance at pointer `/a` of the sample document (what
`docRootInstance.step "a"` returns). -/
def instA : JsoncInstance := ⟨some 3, 0, ("/a"), some annSeed⟩

/-- The embedded instance `asEmbedded` builds from `instA`: rooted at node 3
with an empty pointer and a fresh empty annotations map. -/
def embInst : JsoncInstance := ⟨some 3, 3, (""), some []⟩

/-- `docArena` after the destructive embedding of node 3: the placeholder
`boolean` node of length zero is appended as node 7 and the property's value
slot now holds it. -/
def embArena : Arena :=
  [⟨("object"), 0, 15, none, [1], none⟩,
   ⟨("property"), 1, 13, none, [2, 7], some 0⟩,
   ⟨("string"), 1, 3, some (JValue.str ("a")), [], some 1⟩,
   ⟨("object"), 6, 8, none, [4], some 1⟩,
   ⟨("property"), 7, 6, none, [5, 6], some 3⟩,
   ⟨("string"), 7, 3, some (JValue.str ("b")), [], some 4⟩,
   ⟨("number"), 12, 1, some (JValue.num 1), [], some 4⟩,
   ⟨("boolean"), 6, 0, none, [], none⟩]

/-- The malformed document `{"a":}`: a property with a key but no value. -/
def brokenText : String := "\x7b\"a\":\x7d"

/-- The parse tree of `brokenText`: the property node 1 has only the key
child, node 2. -/
def brokenArena : Arena :=
  [⟨("object"), 0, 6, none, [1], none⟩,
   ⟨("property"), 1, 4, none, [2], some 0⟩,
   ⟨("string"), 1, 3, some (JValue.str ("a")), [], some 1⟩]

/-- The root instance over `brokenArena`. -/
def brokenRoot : JsoncInstance := ⟨some 0, 0, (""), some []⟩

/-- A root instance with an empty annotations store. -/
def cleanInstance : JsoncInstance := ⟨some 0, 0, (""), some []⟩

/-- `cleanInstance.annotate "title" (str "x1")`. -/
def instB : JsoncInstance :=
  ⟨some 0, 0, (""), some [(("") , [(("title"), [JValue.str ("x1")])])]⟩

/-- `instB.annotate "title" (str "x2")`. -/
def instC : JsoncInstance :=
  ⟨some 0, 0, (""), some [(("") , [(("title"), [JValue.str ("x2"), JValue.str ("x1")])])]⟩

/-- The default dialect of `annotation` (source line 142). -/
def dialect2020 : String := ("https://json-schema.org/draft/2020-12/schema")

/-- Modelled from the spec (sections 4.3 and 6): a concrete instantiation of
the external keyword resolver `getKeywordId`, under which — as under the
real 2020-12 dialect — the canonical keyword identifier is a URI distinct
from the short keyword name. -/
def sampleKeywordResolver (keyword _dialectId : String) : String :=
  ("https://json-schema.org/keyword/") ++ keyword

/-- Modelled from the spec (section 6): a concrete instantiation of the
external JSON text parser (`JSON.parse`), defined on the source slices that
occur in the sample documents; every other string — including the empty
slice of a placeholder node — fails to parse. -/
def sampleJsonParse (s : String) : Option JValue :=
  if s = docText then some (JValue.obj [(("a"), JValue.obj [(("b"), JValue.num 1)])])
  else if s = ("\x7b\"b\": 1\x7d") then some (JValue.obj [(("b"), JValue.num 1)])
  else none

/-- The duplicate-key document `{"a":1,"a":2}` — valid strict JSON, in which
`JSON.parse` keeps the last duplicate while the parse tree holds both
properties in source order. -/
def dupText : String := "\x7b\"a\":1,\"a\":2\x7d"

/-- The parse tree of `dupText`: the root object has two completed
properties, both keyed `a`, with values `1` (node 3) and `2` (node 6). -/
def dupArena : Arena :=
  [⟨("object"), 0, 13, none, [1, 4], none⟩,
   ⟨("property"), 1, 5, none, [2, 3], some 0⟩,
   ⟨("string"), 1, 3, some (JValue.str ("a")), [], some 1⟩,
   ⟨("number"), 5, 1, some (JValue.num 1), [], some 1⟩,
   ⟨("property"), 7, 5, none, [5, 6], some 0⟩,
   ⟨("string"), 7, 3, some (JValue.str ("a")), [], some 4⟩,
   ⟨("number"), 11, 1, some (JValue.num 2), [], some 4⟩]

/-- The root instance over `dupArena`. -/
def dupRoot : JsoncInstance := ⟨some 0, 0, (""), some []⟩

/-- The JSONC document `{"a": {/*c*/"b": 1}}`: comments are allowed by the
tolerant parser the module configures (source lines 19-23), but the inner
object's exact source slice `{/*c*/"b": 1}` is not strict JSON. -/
def commentText : String := "\x7b\"a\": \x7b/*c*/\"b\": 1\x7d\x7d"

/-- The parse tree of `commentText`: node 3 is the inner object whose slice
(offset 6, length 13) carries the comment. -/
def commentArena : Arena :=
  [⟨("object"), 0, 20, none, [1], none⟩,
   ⟨("property"), 1, 18, none, [2, 3], some 0⟩,
   ⟨("string"), 1, 3, some (JValue.str ("a")), [], some 1⟩,
   ⟨("object"), 6, 13, none, [4], some 1⟩,
   ⟨("property"), 12, 6, none, [5, 6], some 3⟩,
   ⟨("string"), 12, 3, some (JValue.str ("b")), [], some 4⟩,
   ⟨("number"), 17, 1, some (JValue.num 1), [], some 4⟩]

/-- The root instance over `commentArena`. -/
def commentRoot : JsoncInstance := ⟨some 0, 0, (""), some []⟩

/-- Modelled from the spec (section 6): strict `JSON.parse` on the slices of
the two counterexample documents — `dupText` is valid JSON and parses with
the last duplicate key winning, as JavaScript does; every other string
occurring here (in particular the comment-bearing slice of `commentText`,
which is not strict JSON) fails, as `JSON.parse` throws. -/
def strictJsonParse (s : String) : Option JValue :=
  if s = dupText then some (JValue.obj [(("a"), JValue.num 2)])
  else none

theorem find_map_update {α : Type} (m : List (String × α)) (k : String) (v : α)
    (h : m.any (fun e => e.1 == k) = true) :
    (m.map (fun e => if e.1 == k then (k, v) else e)).find? (fun e => e.1 == k) = some (k, v) := by
  induction m with
  | nil => simp at h
  | cons e t ih =>
    simp only [List.map_cons]
    by_cases he : (e.1 == k) = true
    · rw [if_pos he]
      exact List.find?_cons_of_pos _ (by simp)
    · rw [if_neg he]
      have hskip :
          List.find? (fun e => e.1 == k) (e :: List.map (fun e => if e.1 == k then (k, v) else e) t) =
            List.find? (fun e => e.1 == k) (List.map (fun e => if e.1 == k then (k, v) else e) t) :=
        List.find?_cons_of_neg _ he
      rw [hskip]
      apply ih
      simp only [List.any_cons, Bool.or_eq_true] at h
      rcases h with h | h
      · exact absurd h he
      · exact h

theorem find_append_of_none {α : Type} (p : α → Bool) (m l : List α)
    (h : m.find? p = none) : (m ++ l).find? p = l.find? p := by
  induction m with
  | nil => simp
  | cons e t ih =>
    have hall := List.find?_eq_none.mp h
    have he : ¬ p e = true := hall e (List.mem_cons_self e t)
    have ht : t.find? p = none :=
      List.find?_eq_none.mpr (fun x hx => hall x (List.mem_cons_of_mem e hx))
    rw [List.cons_append, List.find?_cons_of_neg _ he]
    exact ih ht

theorem objGet_objSet_self {α : Type} (m : List (String × α)) (k : String) (v : α) :
    objGet (objSet m k v) k = some v := by
  unfold objGet objSet
  by_cases h : m.any (fun e => e.1 == k) = true
  · rw [if_pos h, find_map_update m k v h]
    rfl
  · rw [if_neg h]
    have hnone : m.find? (fun e => e.1 == k) = none := by
      rw [List.find?_eq_none]
      intro x hx hpx
      exact h (List.any_eq_true.mpr ⟨x, hx, hpx⟩)
    rw [find_append_of_none _ _ _ hnone, List.find?_cons_of_pos _ (by simp)]
    rfl

theorem escapeChar_ne_nil (c : Char) : escapeChar c ≠ [] := by
  unfold escapeChar
  by_cases h1 : c = '~'
  · simp [h1]
  · by_cases h2 : c = '/'
    · simp [h1, h2]
    · simp [h1, h2]

theorem slash_not_mem_escapeChar (c : Char) : '/' ∉ escapeChar c := by
  unfold escapeChar
  by_cases h1 : c = '~'
  · simp [h1]
  · by_cases h2 : c = '/'
    · simp [h1, h2]
    · simp only [if_neg h1, if_neg h2, List.mem_singleton]
      intro e
      exact h2 e.symm

theorem slash_not_mem_escSeg (l : List Char) : '/' ∉ escSeg l := by
  unfold escSeg
  intro hmem
  rw [List.mem_flatten] at hmem
  obtain ⟨s, hs, hin⟩ := hmem
  rw [List.mem_map] at hs
  obtain ⟨c, _, rfl⟩ := hs
  exact slash_not_mem_escapeChar c hin

theorem escSeg_nil : escSeg [] = [] := rfl

theorem escSeg_cons (c : Char) (l : List Char) : escSeg (c :: l) = escapeChar c ++ escSeg l := by
  simp [escSeg]

theorem escSeg_eq_nil {l : List Char} (h : escSeg l = []) : l = [] := by
  cases l with
  | nil => rfl
  | cons c t =>
    rw [escSeg_cons, List.append_eq_nil] at h
    exact absurd h.1 (escapeChar_ne_nil c)

theorem splitSlash_ne_nil (l : List Char) : splitSlash l ≠ [] := by
  cases l with
  | nil => simp [splitSlash]
  | cons c rest =>
    unfold splitSlash
    by_cases h : c = '/'
    · simp [h]
    · rw [if_neg h]
      cases hs : splitSlash rest with
      | nil => simp
      | cons a b => simp

theorem splitSlash_of_no_slash (l : List Char) (h : '/' ∉ l) : splitSlash l = [l] := by
  induction l with
  | nil => rfl
  | cons c rest ih =>
    have hc : ¬ c = '/' := fun e => h (e ▸ List.mem_cons_self c rest)
    have hrest : '/' ∉ rest := fun hm => h (List.mem_cons_of_mem c hm)
    unfold splitSlash
    rw [if_neg hc, ih hrest]

theorem splitSlash_append (xs ys : List Char) (h : '/' ∉ xs) (hd : List Char)
    (tl : List (List Char)) (hys : splitSlash ys = hd :: tl) :
    splitSlash (xs ++ ys) = (xs ++ hd) :: tl := by
  induction xs with
  | nil => simpa using hys
  | cons c xt ih =>
    have hc : ¬ c = '/' := fun e => h (e ▸ List.mem_cons_self c xt)
    have hxt : '/' ∉ xt := fun hm => h (List.mem_cons_of_mem c hm)
    rw [List.cons_append]
    unfold splitSlash
    rw [if_neg hc, ih hxt]
    rfl

theorem unescape_escSeg (l : List Char) : unescapeChars (escSeg l) = l := by
  induction l with
  | nil => rfl
  | cons c rest ih =>
    rw [escSeg_cons]
    by_cases h1 : c = '~'
    · subst h1
      simp only [escapeChar, if_pos rfl]
      show unescapeChars ('~' :: '0' :: escSeg rest) = '~' :: rest
      unfold unescapeChars
      simp [ih]
    · by_cases h2 : c = '/'
      · subst h2
        simp only [escapeChar, if_neg h1, if_pos rfl]
        show unescapeChars ('~' :: '1' :: escSeg rest) = '/' :: rest
        unfold unescapeChars
        simp [ih]
      · simp only [escapeChar, if_neg h1, if_neg h2, List.singleton_append]
        cases hrest : escSeg rest with
        | nil =>
          rw [escSeg_eq_nil hrest]
          rfl
        | cons d rest2 =>
          show unescapeChars (c :: d :: rest2) = c :: rest
          unfold unescapeChars
          rw [if_neg h1, ← hrest, ih]

theorem encode_foldl_data (segments : List String) (acc : String) :
    (segments.foldl (fun pointer segment => JsonPointer.append segment pointer) acc).data =
      acc.data ++ (segments.map (fun s => '/' :: escSeg s.data)).flatten := by
  induction segments generalizing acc with
  | nil => simp
  | cons s ss ih =>
    rw [List.foldl_cons, ih]
    unfold JsonPointer.append
    rw [String.data_append, String.data_append]
    simp

theorem splitSlash_encode_tail (ss : List String) (s0 : List Char) :
    splitSlash (escSeg s0 ++ (ss.map (fun s => '/' :: escSeg s.data)).flatten) =
      escSeg s0 :: ss.map (fun s => escSeg s.data) := by
  induction ss generalizing s0 with
  | nil =>
    simp only [List.map_nil, List.flatten_nil, List.append_nil]
    exact splitSlash_of_no_slash _ (slash_not_mem_escSeg s0)
  | cons s ss' ih =>
    simp only [List.map_cons, List.flatten_cons, List.cons_append]
    have hys : splitSlash ('/' :: (escSeg s.data ++ (ss'.map (fun t => '/' :: escSeg t.data)).flatten)) =
        [] :: (escSeg s.data :: ss'.map (fun t => escSeg t.data)) := by
      unfold splitSlash
      rw [if_pos rfl, ih s.data]
    have happ := splitSlash_append (escSeg s0) _ (slash_not_mem_escSeg s0) [] _ hys
    simpa using happ

theorem decode_map_escSeg (l : List String) :
    (l.map (fun t => escSeg t.data)).map (fun seg => String.mk (unescapeChars seg)) = l := by
  induction l with
  | nil => rfl
  | cons t ts ih =>
    simp only [List.map_cons]
    rw [unescape_escSeg, ih]

theorem value_of_represents (jp : String → Option JValue) (text : String) (a : Arena)
    (fuel idx : Nat) (v : JValue) (r : Nat) (ptr : String) (ann : Option AnnMap)
    (h : represents jp text a fuel idx v = true) :
    value jp text a ⟨some idx, r, ptr, ann⟩ = some v := by
  cases fuel with
  | zero => simp [represents] at h
  | succ fuel =>
    unfold represents at h
    cases hget : a.get? idx with
    | none =>
      rw [hget] at h
      simp at h
    | some n =>
      rw [hget] at h
      unfold value
      simp only [hget]
      cases v with
      | obj members =>
        simp only [Bool.and_eq_true, beq_iff_eq, decide_eq_true_eq, Option.isNone_iff_eq_none] at h
        rw [h.1.1.1.1.2, h.1.1.1.2]
      | arr elems =>
        simp only [Bool.and_eq_true, beq_iff_eq, decide_eq_true_eq, Option.isNone_iff_eq_none] at h
        rw [h.1.1.1.2, h.1.1.2]
      | null =>
        simp only [Bool.and_eq_true, beq_iff_eq, decide_eq_true_eq] at h
        rw [h.2]
      | bool b =>
        simp only [Bool.and_eq_true, beq_iff_eq, decide_eq_true_eq] at h
        rw [h.2]
      | num q =>
        simp only [Bool.and_eq_true, beq_iff_eq, decide_eq_true_eq] at h
        rw [h.2]
      | str s =>
        simp only [Bool.and_eq_true, beq_iff_eq, decide_eq_true_eq] at h
        rw [h.2]

theorem find_member {members : List (String × JValue)} {k : String} {v : JValue}
    (hmem : (k, v) ∈ members) (hnd : (members.map Prod.fst).Nodup) :
    members.find? (fun e => e.1 == k) = some (k, v) := by
  induction members with
  | nil => cases hmem
  | cons e t ih =>
    rw [List.map_cons, List.nodup_cons] at hnd
    rcases List.mem_cons.mp hmem with he | ht
    · rw [← he]
      exact List.find?_cons_of_pos _ (by simp)
    · have hne : ¬ (e.1 == k) = true := by
        rw [beq_iff_eq]
        intro hek
        exact hnd.1 (hek ▸ (List.mem_map.mpr ⟨(k, v), ht, rfl⟩))
      have hskip : List.find? (fun e => e.1 == k) (e :: t) = List.find? (fun e => e.1 == k) t :=
        List.find?_cons_of_neg _ hne
      rw [hskip]
      exact ih ht hnd.2

theorem entryOf_of_propOk (a : Arena) (r : Nat) (ptr : String) (ann : Option AnnMap)
    (pIdx : Nat) (key : String) (vIdx : Nat) (h : propOk a pIdx key = some vIdx) :
    ∃ kIdx kn, a.get? kIdx = some kn ∧ kn.value = some (JValue.str key) ∧
      entryOf a r ptr ann pIdx =
        some (⟨some kIdx, r, JsonPointer.append key ptr, ann⟩,
              ⟨some vIdx, r, JsonPointer.append key ptr, ann⟩) := by
  unfold propOk at h
  cases hp : a.get? pIdx with
  | none => rw [hp] at h; simp at h
  | some p =>
    rw [hp] at h
    simp only [] at h
    by_cases hcond : (p.type == "property" && p.children.length == 2) = true
    case neg => rw [if_neg hcond] at h; simp at h
    case pos =>
      rw [if_pos hcond] at h
      cases hk0 : p.children.get? 0 with
      | none => rw [hk0] at h; simp at h
      | some kIdx =>
        rw [hk0] at h
        simp only [] at h
        cases hkn : a.get? kIdx with
        | none => rw [hkn] at h; simp at h
        | some kn =>
          rw [hkn] at h
          simp only [] at h
          by_cases hks : (kn.type == "string" && decide (kn.value = some (JValue.str key))) = true
          case neg => rw [if_neg hks] at h; simp at h
          case pos =>
            rw [if_pos hks] at h
            simp only [Bool.and_eq_true, beq_iff_eq, decide_eq_true_eq] at hks
            refine ⟨kIdx, kn, hkn, hks.2, ?_⟩
            unfold entryOf
            simp only [hp, h, hk0, hkn, hks.2]

theorem find_entry_aux (jp : String → Option JValue) (text : String) (a : Arena)
    (fuel : Nat) (r : Nat) (ptr : String) (ann : Option AnnMap) :
    ∀ (cs : List Nat) (ms : List (String × JValue)) (k : String) (v : JValue),
    ((cs.zip ms).all (fun pm =>
        match propOk a pm.1 pm.2.1 with
        | some vIdx => represents jp text a fuel vIdx pm.2.2
        | none => false)) = true →
    cs.length = ms.length →
    (k, v) ∈ ms →
    (ms.map Prod.fst).Nodup →
    ∃ kIdx vIdx,
      (cs.filterMap (entryOf a r ptr ann)).find? (isKeyFor jp text a k) =
        some (⟨some kIdx, r, JsonPointer.append k ptr, ann⟩,
              ⟨some vIdx, r, JsonPointer.append k ptr, ann⟩) ∧
      represents jp text a fuel vIdx v = true := by
  intro cs
  induction cs with
  | nil =>
    intro ms k v hall hlen hmem hnd
    cases ms with
    | nil => cases hmem
    | cons e t => simp at hlen
  | cons c ct ih =>
    intro ms k v hall hlen hmem hnd
    cases ms with
    | nil => cases hmem
    | cons e t =>
      obtain ⟨key, mv⟩ := e
      rw [List.zip_cons_cons, List.all_cons, Bool.and_eq_true] at hall
      obtain ⟨hhead, htail⟩ := hall
      cases hpk : propOk a c key with
      | none => rw [hpk] at hhead; simp at hhead
      | some vIdx0 =>
        rw [hpk] at hhead
        obtain ⟨kIdx0, kn, hkn, hknv, hentry⟩ := entryOf_of_propOk a r ptr ann c key vIdx0 hpk
        have hkeyval : value jp text a
            (⟨some kIdx0, r, JsonPointer.append key ptr, ann⟩ : JsoncInstance) =
            some (JValue.str key) := by
          unfold value
          simp only [hkn, hknv]
        have hfm : (c :: ct).filterMap (entryOf a r ptr ann) =
            (⟨some kIdx0, r, JsonPointer.append key ptr, ann⟩,
             ⟨some vIdx0, r, JsonPointer.append key ptr, ann⟩) :: ct.filterMap (entryOf a r ptr ann) := by
          rw [List.filterMap_cons, hentry]
        rw [hfm]
        have hlen' : ct.length = t.length := by simpa using hlen
        have hndt : (t.map Prod.fst).Nodup := by
          rw [List.map_cons, List.nodup_cons] at hnd
          exact hnd.2
        by_cases hk : key = k
        · subst hk
          have hvm : v = mv := by
            rcases List.mem_cons.mp hmem with heq | hmem'
            · exact congrArg Prod.snd heq
            · exfalso
              rw [List.map_cons, List.nodup_cons] at hnd
              exact hnd.1 (List.mem_map.mpr ⟨(key, v), hmem', rfl⟩)
          refine ⟨kIdx0, vIdx0, ?_, by rw [hvm]; exact hhead⟩
          apply List.find?_cons_of_pos
          simp [isKeyFor, hkeyval]
        · have hmem' : (k, v) ∈ t := by
            rcases List.mem_cons.mp hmem with heq | h'
            · exact absurd (congrArg Prod.fst heq) (fun e => hk e.symm)
            · exact h'
          have hpred : isKeyFor jp text a k
              (⟨some kIdx0, r, JsonPointer.append key ptr, ann⟩,
               ⟨some vIdx0, r, JsonPointer.append key ptr, ann⟩) = false := by
            simp [isKeyFor, hkeyval]
            exact hk
          have hskip : List.find? (isKeyFor jp text a k)
              ((⟨some kIdx0, r, JsonPointer.append key ptr, ann⟩,
                ⟨some vIdx0, r, JsonPointer.append key ptr, ann⟩) :: ct.filterMap (entryOf a r ptr ann)) =
              List.find? (isKeyFor jp text a k) (ct.filterMap (entryOf a r ptr ann)) :=
            List.find?_cons_of_neg _ (by simp [hpred])
          rw [hskip]
          exact ih t k v htail hlen' hmem' hndt

/-- C2 (amended): for every object Instance `o` whose document is a
well-formed parse (`represents`) of an object value with members `members` —
every composite node's exact source slice re-parses under the active JSON
parser to its structural value, and member keys are pairwise distinct — and
every key `k` present in it with value `v`, `o.step(k).value()` and
`(o.value())[k]` are both `some v`: navigation and materialization agree and
succeed.  Both well-formedness conditions are necessary: see the
counterexample on a comment-bearing slice and on duplicate keys. -/
theorem step_value_navigation_consistency
    (jp : String → Option JValue) (text : String) (a : Arena)
    (fuel idx r : Nat) (ptr : String) (ann : Option AnnMap)
    (members : List (String × JValue)) (k : String) (v : JValue)
    (hrep : represents jp text a fuel idx (JValue.obj members) = true)
    (hmem : (k, v) ∈ members) :
    value jp text a (step jp text a ⟨some idx, r, ptr, ann⟩ k) = some v ∧
    (value jp text a ⟨some idx, r, ptr, ann⟩).bind (fun w => jsObjectIndex w k) = some v := by
  cases fuel with
  | zero => simp [represents] at hrep
  | succ fuel =>
    have hval := value_of_represents jp text a (fuel + 1) idx (JValue.obj members) r ptr ann hrep
    unfold represents at hrep
    cases hget : a.get? idx with
    | none => rw [hget] at hrep; simp at hrep
    | some n =>
      rw [hget] at hrep
      simp only [Bool.and_eq_true, beq_iff_eq, decide_eq_true_eq, Option.isNone_iff_eq_none] at hrep
      obtain ⟨⟨⟨⟨⟨hty, hnone⟩, hjp⟩, hnd⟩, hlen⟩, hall⟩ := hrep
      have htype : typeOf a (⟨some idx, r, ptr, ann⟩ : JsoncInstance) = "object" := by
        unfold typeOf
        simp only [hget]
        exact hty
      have hentries : entries a ⟨some idx, r, ptr, ann⟩ =
          n.children.filterMap (entryOf a r ptr ann) := by
        unfold entries
        rw [if_neg (by simp [htype])]
        simp only [hget]
      obtain ⟨kIdx, vIdx, hfind, hrepv⟩ :=
        find_entry_aux jp text a fuel r ptr ann n.children members k v hall hlen hmem hnd
      have hstep : step jp text a ⟨some idx, r, ptr, ann⟩ k =
          ⟨some vIdx, r, JsonPointer.append k ptr, ann⟩ := by
        unfold step
        rw [hentries, hfind]
      constructor
      · rw [hstep]
        exact value_of_represents jp text a fuel vIdx v r (JsonPointer.append k ptr) ann hrepv
      · rw [hval]
        show jsObjectIndex (JValue.obj members) k = some v
        unfold jsObjectIndex
        simp only []
        rw [find_member hmem hnd]
        rfl

/-- Witness for C2: the sample document, stepping from its root to key `a`. -/
theorem step_value_navigation_consistency_witness :
    value sampleJsonParse docText docArena
        (step sampleJsonParse docText docArena ⟨some 0, 0, (""), some annSeed⟩ ("a")) =
      some (JValue.obj [(("b"), JValue.num 1)]) ∧
    (value sampleJsonParse docText docArena ⟨some 0, 0, (""), some annSeed⟩).bind
        (fun w => jsObjectIndex w ("a")) = some (JValue.obj [(("b"), JValue.num 1)]) :=
  step_value_navigation_consistency sampleJsonParse docText docArena 3 0 0 ("") (some annSeed)
    [(("a"), JValue.obj [(("b"), JValue.num 1)])] ("a") (JValue.obj [(("b"), JValue.num 1)])
    rfl (List.mem_singleton.mpr rfl)

/-- Counterexample to C2 as stated: the module parses with comments and
trailing commas allowed (source lines 19-23), yet `value()` re-parses slices
with strict `JSON.parse`.  On the duplicate-key document `{"a":1,"a":2}`
(valid JSON), `o.step("a").value()` is `1` — `step`'s `find` takes the first
matching entry — while `(o.value())["a"]` is `2` — `JSON.parse` keeps the
last duplicate — so the claimed equality fails; and on the JSONC document
`{"a": {/*c*/"b": 1}}`, `step("a")` reaches a present node whose
comment-bearing slice is not strict JSON, so `value()` fails (`JSON.parse`
throws) instead of successfully materializing. -/
theorem step_value_consistency_counterexample :
    value strictJsonParse dupText dupArena
        (step strictJsonParse dupText dupArena dupRoot ("a")) = some (JValue.num 1) ∧
    (value strictJsonParse dupText dupArena dupRoot).bind
        (fun w => jsObjectIndex w ("a")) = some (JValue.num 2) ∧
    some (JValue.num 1) ≠ some (JValue.num 2) ∧
    (step strictJsonParse commentText commentArena commentRoot ("a")).node = some 3 ∧
    value strictJsonParse commentText commentArena
        (step strictJsonParse commentText commentArena commentRoot ("a")) = none :=
  ⟨rfl, rfl, by decide, rfl, rfl⟩

theorem decodeChars_slash (rest : List Char) :
    decodeChars ('/' :: rest) = some (splitSlash rest) := rfl

theorem decodeChars_not_slash (c : Char) (rest : List Char) (h : ¬ c = '/') :
    decodeChars (c :: rest) = none := by
  unfold decodeChars
  simp only []
  rw [if_neg h]

/-- C9: decoding the pointer obtained by encoding any finite path of raw
segment strings — including segments containing slash and tilde characters —
yields exactly the original sequence of segments. -/
theorem pointer_codec_roundtrip (segments : List String) :
    pointerSegments (encodePointer segments) = Except.ok segments := by
  cases segments with
  | nil => rfl
  | cons s ss =>
    have hdata : (encodePointer (s :: ss)).data =
        '/' :: (escSeg s.data ++ (ss.map (fun t => '/' :: escSeg t.data)).flatten) := by
      unfold encodePointer
      rw [encode_foldl_data]
      simp
    unfold pointerSegments
    rw [hdata, decodeChars_slash]
    simp only []
    rw [splitSlash_encode_tail]
    simp only [List.map_cons]
    rw [unescape_escSeg, decode_map_escSeg]

/-- C8: `pointerSegments` raises the malformed-pointer error exactly for a
non-empty pointer whose first character is not `/`, and the empty pointer is
accepted, decoding to zero segments. -/
theorem pointerSegments_error_iff :
    (∀ p : String, pointerSegments p = Except.error (JsError.invalidPointer p) ↔
      (p ≠ ("") ∧ p.data.head? ≠ some '/')) ∧
    pointerSegments ("") = Except.ok [] := by
  refine ⟨fun p => ?_, rfl⟩
  cases hd : p.data with
  | nil =>
    have hp : p = ("") := by
      cases p with
      | mk l =>
        simp only [] at hd
        rw [hd]
    rw [hp]
    rw [show pointerSegments ("") = Except.ok [] from rfl]
    simp
  | cons c rest =>
    have hne : p ≠ ("") := by
      intro hp
      rw [hp] at hd
      cases hd
    by_cases hc : c = '/'
    · subst hc
      have hok : pointerSegments p =
          Except.ok ((splitSlash rest).map (fun seg => String.mk (unescapeChars seg))) := by
        unfold pointerSegments
        rw [hd, decodeChars_slash]
      rw [hok]
      simp [hd]
    · have herr : pointerSegments p = Except.error (JsError.invalidPointer p) := by
        unfold pointerSegments
        rw [hd, decodeChars_not_slash c rest hc]
      rw [herr]
      simp [hd, hne, hc]

/-- Witness for C8: a concrete rejected pointer and the accepted empty one. -/
theorem pointerSegments_error_iff_witness :
    pointerSegments ("abc") = Except.error (JsError.invalidPointer ("abc")) ∧
    pointerSegments ("") = Except.ok [] :=
  ⟨(pointerSegments_error_iff.1 ("abc")).mpr (by decide), pointerSegments_error_iff.2⟩

theorem pointerSegments_error_shape (p : String) (e : JsError)
    (h : pointerSegments p = Except.error e) : e = JsError.invalidPointer p := by
  unfold pointerSegments at h
  cases hd : decodeChars p.data with
  | none =>
    rw [hd] at h
    simp only [] at h
    exact (Except.error.inj h).symm
  | some segs =>
    rw [hd] at h
    simp only [] at h
    cases h

theorem pointerSegments_ok_of_wf (p : String)
    (h : p = ("") ∨ p.data.head? = some '/') :
    ∃ segs, pointerSegments p = Except.ok segs := by
  rcases h with h | h
  · rw [h]
    exact ⟨[], rfl⟩
  · cases hd : p.data with
    | nil =>
      refine ⟨[], ?_⟩
      unfold pointerSegments
      rw [hd]
      rfl
    | cons c rest =>
      rw [hd] at h
      simp only [List.head?_cons] at h
      have hc : c = '/' := by injection h
      subst hc
      refine ⟨(splitSlash rest).map (fun seg => String.mk (unescapeChars seg)), ?_⟩
      unfold pointerSegments
      rw [hd, decodeChars_slash]

/-- C7: `get` raises its resolution error exactly when the reference does
not begin with `#`; for a fragment reference whose decoded pointer is
well-formed, `get` never raises — it returns an instance carrying that
pointer whose node is the structural resolution of the segments (absent,
`none`, when the pointer addresses no node). -/
theorem get_resolution_error_iff
    (du : String → String) (a : Arena) (i : JsoncInstance) (uri : String) :
    ((JsoncInstance.get du a i uri = Except.error (JsError.resolutionError uri)) ↔
      uri.data.head? ≠ some '#') ∧
    (uri.data.head? = some '#' →
      (du (strDrop uri 1) = ("") ∨ (du (strDrop uri 1)).data.head? = some '/') →
      ∃ segs r, pointerSegments (du (strDrop uri 1)) = Except.ok segs ∧
        JsoncInstance.get du a i uri = Except.ok r ∧
        r.pointer = du (strDrop uri 1) ∧
        r.node = findNodeAtLocation a i.root segs) := by
  unfold JsoncInstance.get
  by_cases hh : uri.data.head? ≠ some '#'
  · rw [if_pos hh]
    refine ⟨⟨fun _ => hh, fun _ => rfl⟩, fun h _ => absurd h hh⟩
  · rw [if_neg hh]
    push_neg at hh
    constructor
    · constructor
      · intro h
        exfalso
        cases hps : pointerSegments (du (strDrop uri 1)) with
        | error e =>
          rw [hps] at h
          simp only [] at h
          have he := Except.error.inj h
          rw [pointerSegments_error_shape _ _ hps] at he
          cases he
        | ok segs =>
          rw [hps] at h
          simp only [] at h
          cases h
      · intro h
        exact absurd hh h
    · intro _ hwf
      obtain ⟨segs, hps⟩ := pointerSegments_ok_of_wf _ hwf
      refine ⟨segs, ⟨findNodeAtLocation a i.root segs, i.root, du (strDrop uri 1), i.annotations⟩,
        hps, ?_, rfl, rfl⟩
      rw [hps]

/-- Witness for C7: a non-fragment reference raises; a well-formed missing
fragment pointer resolves to an absent-node instance without raising. -/
theorem get_resolution_error_iff_witness :
    JsoncInstance.get (fun s => s) docArena docRootInstance ("nope") =
      Except.error (JsError.resolutionError ("nope")) ∧
    (∃ segs r, pointerSegments ((fun s : String => s) (strDrop ("#/zz") 1)) = Except.ok segs ∧
      JsoncInstance.get (fun s => s) docArena docRootInstance ("#/zz") = Except.ok r ∧
      r.pointer = (fun s : String => s) (strDrop ("#/zz") 1) ∧
      r.node = findNodeAtLocation docArena docRootInstance.root segs) := by
  constructor
  · exact (get_resolution_error_iff (fun s => s) docArena docRootInstance ("nope")).1.mpr
      (by decide)
  · exact (get_resolution_error_iff (fun s => s) docArena docRootInstance ("#/zz")).2
      (by decide) (Or.inr (by decide))

/-- C6: stepping to a key that is not present — in particular on any
non-object instance — raises nothing and returns an absent-node instance
whose pointer is the source pointer extended with the escaped segment `k`,
whose value is `undefined` (`none`) and whose type is the sentinel string
`"undefined"`. -/
theorem step_missing_key_absent
    (jp : String → Option JValue) (text : String) (a : Arena)
    (i : JsoncInstance) (k : String)
    (hmiss : ∀ pair ∈ entries a i, isKeyFor jp text a k pair = false) :
    step jp text a i k = ⟨none, i.root, JsonPointer.append k i.pointer, none⟩ ∧
    value jp text a (step jp text a i k) = none ∧
    typeOf a (step jp text a i k) = ("undefined") := by
  have hfind : (entries a i).find? (isKeyFor jp text a k) = none :=
    List.find?_eq_none.mpr (fun x hx => by simp [hmiss x hx])
  have hstep : step jp text a i k = ⟨none, i.root, JsonPointer.append k i.pointer, none⟩ := by
    unfold step
    rw [hfind]
  refine ⟨hstep, ?_, ?_⟩
  · rw [hstep]
    rfl
  · rw [hstep]
    rfl

/-- Witness for C6: the sample root has no key `zz`. -/
theorem step_missing_key_absent_witness :
    step sampleJsonParse docText docArena docRootInstance ("zz") =
      ⟨none, docRootInstance.root, JsonPointer.append ("zz") docRootInstance.pointer, none⟩ ∧
    value sampleJsonParse docText docArena
      (step sampleJsonParse docText docArena docRootInstance ("zz")) = none ∧
    typeOf docArena (step sampleJsonParse docText docArena docRootInstance ("zz")) =
      ("undefined") :=
  step_missing_key_absent sampleJsonParse docText docArena docRootInstance ("zz") (by decide)

/-- C1 (amended): `annotate` records under the raw keyword while
`annotation` looks up the dialect-resolved identifier, so the round trip
holds exactly when the resolved identifier of `kw` equals `kw` itself.
Under that fixed-point hypothesis, for an instance with a defined
annotations store and no recorded values for `kw`: after
`b = a.annotate(kw, v1)` and `c = b.annotate(kw, v2)`, `c.annotation(kw)` is
`[v2, v1]` — the new value is prepended, append-only — and `a.annotation(kw)`
is still `[]`. -/
theorem annotate_append_only
    (gki : String → String → String) (i : JsoncInstance) (m : AnnMap)
    (kw dialectId : String) (v1 v2 : JValue) (b c : JsoncInstance)
    (hm : i.annotations = some m)
    (hfix : gki kw dialectId = kw)
    (hempty : annotation gki i kw dialectId = Except.ok [])
    (hb : annotate i kw v1 = Except.ok b)
    (hc : annotate b kw v2 = Except.ok c) :
    annotation gki c kw dialectId = Except.ok [v2, v1] ∧
    annotation gki i kw dialectId = Except.ok [] := by
  refine ⟨?_, hempty⟩
  unfold annotation at hempty
  rw [hm] at hempty
  simp only [] at hempty
  rw [hfix] at hempty
  have hemp2 : ((objGet m i.pointer).bind (fun inner => objGet inner kw)).getD [] = [] :=
    Except.ok.inj hempty
  unfold annotate at hb
  rw [hm] at hb
  simp only [] at hb
  rw [hemp2] at hb
  have hbeq := (Except.ok.inj hb).symm
  unfold annotate at hc
  rw [hbeq] at hc
  simp only [] at hc
  rw [objGet_objSet_self m i.pointer (objSet ((objGet m i.pointer).getD []) kw [v1])] at hc
  simp only [Option.getD_some, Option.some_bind] at hc
  rw [objGet_objSet_self ((objGet m i.pointer).getD []) kw [v1]] at hc
  simp only [Option.getD_some] at hc
  have hceq := (Except.ok.inj hc).symm
  rw [hceq]
  unfold annotation
  simp only []
  rw [hfix]
  rw [objGet_objSet_self]
  simp only [Option.some_bind]
  rw [objGet_objSet_self]
  simp only [Option.getD_some]

/-- Witness for the amended C1: with the identity resolver (the keyword is
already its canonical identifier) the two-step annotate round trip yields
`[v2, v1]` and the original instance still reports `[]`. -/
theorem annotate_append_only_witness :
    annotation (fun k _ => k) instC ("title") dialect2020 =
      Except.ok [JValue.str ("x2"), JValue.str ("x1")] ∧
    annotation (fun k _ => k) cleanInstance ("title") dialect2020 = Except.ok [] :=
  annotate_append_only (fun k _ => k) cleanInstance [] ("title") dialect2020
    (JValue.str ("x1")) (JValue.str ("x2")) instB instC rfl rfl rfl rfl rfl

/-- Counterexample to C1 as stated: `annotate` records the value under the
raw keyword, not under the dialect-resolved keyword identifier, so under a
resolver whose canonical identifier differs from the short name (as in the
real 2020-12 dialect) `c.annotation(kw)` returns `[]`, not `[v2, v1]`. -/
theorem annotate_append_only_counterexample :
    annotate cleanInstance ("title") (JValue.str ("x1")) = Except.ok instB ∧
    annotate instB ("title") (JValue.str ("x2")) = Except.ok instC ∧
    annotation sampleKeywordResolver cleanInstance ("title") dialect2020 = Except.ok [] ∧
    annotation sampleKeywordResolver instC ("title") dialect2020 = Except.ok [] ∧
    (Except.ok ([] : List JValue) : Except String (List JValue)) ≠
      Except.ok [JValue.str ("x2"), JValue.str ("x1")] :=
  ⟨rfl, rfl, rfl, rfl, fun h => List.noConfusion (Except.ok.inj h)⟩

/-- C3 (amended): `get` on a fragment reference resolves the decoded pointer
against `this.root` — the current view's root — not the document's own root;
on an embedded instance `#<p>` therefore addresses `p` within the embedded
subtree. -/
theorem get_resolves_against_view_root
    (du : String → String) (a : Arena) (i : JsoncInstance) (uri : String)
    (segs : List String)
    (hhash : uri.data.head? = some '#')
    (hsegs : pointerSegments (du (strDrop uri 1)) = Except.ok segs) :
    JsoncInstance.get du a i uri =
      Except.ok ⟨findNodeAtLocation a i.root segs, i.root, du (strDrop uri 1), i.annotations⟩ := by
  unfold JsoncInstance.get
  rw [if_neg (by simp [hhash])]
  rw [hsegs]

/-- Witness for the amended C3: on the embedded instance, `#/b` resolves
against the embedded root (node 3). -/
theorem get_view_resolution_witness :
    JsoncInstance.get (fun s => s) embArena embInst ("#/b") =
      Except.ok ⟨findNodeAtLocation embArena embInst.root [("b")], embInst.root,
        (fun s : String => s) (strDrop ("#/b") 1), embInst.annotations⟩ :=
  get_resolves_against_view_root (fun s => s) embArena embInst ("#/b") [("b")] rfl rfl

/-- Counterexample to C3 as stated: after embedding at `/a` of
`{"a": {"b": 1}}`, `get "#/b"` resolves to the number node inside the
embedded subtree (node 6, the literal `1`), although the document's own root
(node 0) has no `/b` — so `get` does not resolve the pointer against the
document's true root. -/
theorem get_embedded_counterexample :
    asEmbedded docArena instA = some (embInst, embArena) ∧
    JsoncInstance.get (fun s => s) embArena embInst ("#/b") =
      Except.ok ⟨some 6, 3, ("/b"), some []⟩ ∧
    (embArena.get? 6).bind Node.value = some (JValue.num 1) ∧
    findNodeAtLocation embArena 0 [("b")] = none :=
  ⟨rfl, rfl, rfl, rfl⟩

/-- C4: for the document `{"a": {"b": 1}}` (any JSON parser `jp` agreeing
with JSON on the two slices involved), `asEmbedded` on the instance at `/a`
returns an instance whose root and node are both the inner-object node, with
empty pointer and a fresh empty annotations map — not the inherited,
non-empty one — and whose value is `{"b": 1}`; as a side effect the node's
slot in its structural parent now holds a zero-length `boolean` placeholder
at the same offset, so stepping to `a` from the original root reaches the
placeholder, whose value is no longer `{"b": 1}` but `none` (the empty slice
does not parse). -/
theorem asEmbedded_fresh_and_destructive
    (jp : String → Option JValue)
    (h1 : jp ("\x7b\"b\": 1\x7d") = some (JValue.obj [(("b"), JValue.num 1)]))
    (h0 : jp ("") = none) :
    asEmbedded docArena instA = some (embInst, embArena) ∧
    embInst.root = 3 ∧ embInst.node = some 3 ∧ instA.node = some 3 ∧
    embInst.pointer = ("") ∧ embInst.annotations = some [] ∧
    instA.annotations = some annSeed ∧ annSeed ≠ [] ∧
    value jp docText embArena embInst = some (JValue.obj [(("b"), JValue.num 1)]) ∧
    step jp docText embArena docRootInstance ("a") = ⟨some 7, 0, ("/a"), some annSeed⟩ ∧
    (embArena.get? 7).map Node.type = some ("boolean") ∧
    (embArena.get? 7).map Node.length = some 0 ∧
    (embArena.get? 7).map Node.offset = some 6 ∧
    value jp docText embArena (step jp docText embArena docRootInstance ("a")) = none := by
  refine ⟨rfl, rfl, rfl, rfl, rfl, rfl, rfl, by decide, ?_, rfl, rfl, rfl, rfl, ?_⟩
  · have h : value jp docText embArena embInst = jp ("\x7b\"b\": 1\x7d") := rfl
    rw [h, h1]
  · have h : value jp docText embArena (step jp docText embArena docRootInstance ("a")) =
        jp ("") := rfl
    rw [h, h0]

/-- Witness for C4: the sample JSON parser satisfies the two parsing facts. -/
theorem asEmbedded_fresh_and_destructive_witness :
    asEmbedded docArena instA = some (embInst, embArena) ∧
    embInst.root = 3 ∧ embInst.node = some 3 ∧ instA.node = some 3 ∧
    embInst.pointer = ("") ∧ embInst.annotations = some [] ∧
    instA.annotations = some annSeed ∧ annSeed ≠ [] ∧
    value sampleJsonParse docText embArena embInst =
      some (JValue.obj [(("b"), JValue.num 1)]) ∧
    step sampleJsonParse docText embArena docRootInstance ("a") =
      ⟨some 7, 0, ("/a"), some annSeed⟩ ∧
    (embArena.get? 7).map Node.type = some ("boolean") ∧
    (embArena.get? 7).map Node.length = some 0 ∧
    (embArena.get? 7).map Node.offset = some 6 ∧
    value sampleJsonParse docText embArena
      (step sampleJsonParse docText embArena docRootInstance ("a")) = none :=
  asEmbedded_fresh_and_destructive sampleJsonParse rfl rfl

/-- C5 is refuted by the code at this input: the absent-node instance built
by `step` does not share the source instance's annotations map — the source
passes `this.annotations` as a spurious third argument to
`JsonPointer.append` (which takes two) instead of as the constructor's fifth
argument, leaving the new instance's `annotations` equal to `undefined`
(`none`), for every JSON parser. -/
theorem step_absent_drops_annotations :
    (∀ jp : String → Option JValue,
      (step jp docText docArena docRootInstance ("zz")).annotations = none) ∧
    docRootInstance.annotations = some annSeed ∧
    (none : Option AnnMap) ≠ some annSeed :=
  ⟨fun _ => rfl, rfl, fun h => Option.noConfusion h⟩

/-- C10: over the malformed document `{"a":}` — whose single property has a
key but no value child — the iteration operations disagree: `entries` omits
the property entirely (hence `step` returns an absent-node instance), while
`keys` still yields an instance for its key node — so `has` answers `true`
even though `step` is absent — and `values` yields an absent-node instance
(node `none`) for it rather than skipping it. -/
theorem malformed_property_iteration_disagreement :
    entries brokenArena brokenRoot = [] ∧
    (∀ jp : String → Option JValue,
      step jp brokenText brokenArena brokenRoot ("a") = ⟨none, 0, ("/a"), none⟩) ∧
    keys brokenArena brokenRoot = [⟨some 2, 0, ("/a"), some []⟩] ∧
    (∀ jp : String → Option JValue,
      has jp brokenText brokenArena brokenRoot ("a") = true) ∧
    values brokenArena brokenRoot = [⟨none, 0, ("/a"), some []⟩] :=
  ⟨rfl, fun _ => rfl, rfl, fun _ => rfl, rfl⟩
